import Mathlib

/-!
Shallow embedding of the line-oriented text-search utility in `src/main.c`,
together with theorems settling the specification claims about it.

C strings are modelled as `List Char` (NUL-free character sequences); machine
sizes are `Nat`.  Each definition mirrors one C function of the source and
keeps its name where Lean allows.
-/

set_option maxHeartbeats 1000000

/-- The `MAX_LINE_LENGTH` constant of `main.c` (size in bytes of the fixed
line, pattern and copy buffers, including the terminating NUL). -/
def MAX_LINE_LENGTH : Nat := 1024

/-- The `grep_options` struct of `main.c`: one boolean per command-line flag. -/
structure grep_options where
  ignore_case : Bool
  line_number : Bool
  count_only : Bool
  invert_match : Bool
  use_wildcards : Bool
  use_anchors : Bool
deriving DecidableEq, Repr

/-- ASCII-range `tolower` as used by `main.c` (the C locale): uppercase
letters are shifted by 32, every other character is unchanged. -/
def tolowerChar (c : Char) : Char :=
  if 'A' ≤ c ∧ c ≤ 'Z' then Char.ofNat (c.toNat + 32) else c

/-- The case-folding copy loop of `line_matches` (lines 158-172 of `main.c`):
at most `MAX_LINE_LENGTH - 1` characters are copied into the fixed buffer,
each lower-cased; the excess is silently dropped. -/
def foldCase (s : List Char) : List Char :=
  (s.take (MAX_LINE_LENGTH - 1)).map tolowerChar

/-- Character-for-character comparison of `sub` against the start of `line`
(the `^`-anchor loop of `match_with_anchors`, lines 97-109 of `main.c`:
length guard followed by an index-by-index comparison). -/
def prefixCheck : List Char → List Char → Bool
  | [], _ => true
  | _ :: _, [] => false
  | c :: cs, d :: ds => c = d && prefixCheck cs ds

/-- Comparison of `sub` against the end of `eff` (the `$`-anchor tail
comparison of `match_with_anchors`, lines 125-140 of `main.c`: length guard,
then compare against the last `sub.length` characters). -/
def suffixCheck (sub eff : List Char) : Bool :=
  if sub.length ≤ eff.length then
    prefixCheck sub (eff.drop (eff.length - sub.length))
  else false

/-- `strstr(line, pat) != NULL`: `pat` occurs at some offset of `line`
(offsets `0 .. line.length` are tried; the empty pattern matches). -/
def strstrCheck (pat : List Char) : List Char → Bool
  | [] => prefixCheck pat []
  | c :: rest => prefixCheck pat (c :: rest) || strstrCheck pat rest

/-- The suffix-trying loop of the `*` case of `match_from_current_position`
(lines 29-42 of `main.c`): try `f` on the current line suffix, advance one
character while the line is nonempty, finally try `f` on the empty suffix. -/
def tryAllSuffixes (f : List Char → Bool) : List Char → Bool
  | [] => f []
  | c :: rest => f (c :: rest) || tryAllSuffixes f rest

/-- `match_from_current_position` of `main.c` (lines 20-58): consume the
pattern against the line from the current position; `*` matches any run via
the suffix loop, `?` one character of a nonempty line, any other pattern
character must equal the line character. -/
def match_from_current_position : List Char → List Char → Bool
  | _, [] => true
  | line, p :: ps =>
    if p = '*' then
      tryAllSuffixes (fun l => match_from_current_position l ps) line
    else
      match line with
      | [] => false
      | c :: rest =>
        if p = '?' then match_from_current_position rest ps
        else if p = c then match_from_current_position rest ps
        else false

/-- The offset loop of `match_pattern` (lines 69-74 of `main.c`): try
`match_from_current_position` at every nonempty suffix of the line; the
loop stops at the terminating NUL without trying the empty suffix. -/
def matchPatternLoop (pat : List Char) : List Char → Bool
  | [] => false
  | c :: rest => match_from_current_position (c :: rest) pat || matchPatternLoop pat rest

/-- `match_pattern` of `main.c` (lines 65-77): an empty pattern matches
immediately, otherwise the pattern is tried at every nonempty suffix. -/
def match_pattern (line pat : List Char) : Bool :=
  if pat = [] then true else matchPatternLoop pat line

/-- `match_with_anchors` of `main.c` (lines 84-145): a leading `^` demands a
character-for-character prefix match of the remainder; otherwise a trailing
`$` demands a suffix match of the remainder against the line with at most one
trailing newline stripped; otherwise plain `strstr` containment. -/
def match_with_anchors (line pat : List Char) : Bool :=
  if pat.head? = some '^' then
    prefixCheck pat.tail line
  else if pat.getLast? = some '$' then
    let eff := if line.getLast? = some '\n' then line.dropLast else line
    suffixCheck pat.dropLast eff
  else
    strstrCheck pat line

/-- The mode dispatch of `line_matches` (lines 179-190 of `main.c`), applied
to the already-copied (possibly case-folded) line and pattern. -/
def raw_match (line pat : List Char) (opts : grep_options) : Bool :=
  let lc := if opts.ignore_case then foldCase line else line
  let pc := if opts.ignore_case then foldCase pat else pat
  if opts.use_anchors then match_with_anchors lc pc
  else if opts.use_wildcards then match_pattern lc pc
  else strstrCheck pc lc

/-- `line_matches` of `main.c` (lines 150-194): copy (folding case when
requested), dispatch on the matching mode, and invert the result last when
`invert_match` is set. -/
def line_matches (line pat : List Char) (opts : grep_options) : Bool :=
  if opts.invert_match then !(raw_match line pat opts) else raw_match line pat opts

/-- Wildcard consumption as the specification words it: the empty pattern is
consumed trivially, `*` consumes zero or more arbitrary characters, `?`
consumes exactly one arbitrary character (and so fails at end of line, where
no rule applies), and every other pattern character consumes exactly the
equal line character. -/
inductive Consumes : List Char → List Char → Prop where
  | nil (line : List Char) : Consumes line []
  | star (line ps : List Char) (k : Nat) (hk : k ≤ line.length)
      (h : Consumes (line.drop k) ps) : Consumes line ('*' :: ps)
  | qmark (c : Char) (rest ps : List Char)
      (h : Consumes rest ps) : Consumes (c :: rest) ('?' :: ps)
  | lit (p : Char) (rest ps : List Char) (hp1 : p ≠ '*') (hp2 : p ≠ '?')
      (h : Consumes rest ps) : Consumes (p :: rest) (p :: ps)

/-- Anchor-mode matching as the specification words it: a pattern starting
with `^` requires the line to start with the remainder from offset 0; else a
pattern ending in `$` requires the line, with at most one trailing newline
stripped, to end with the remainder; else plain substring containment. -/
def AnchorSpec (line pat : List Char) : Prop :=
  if pat.head? = some '^' then ∃ t, line = pat.tail ++ t
  else if pat.getLast? = some '$' then
    ∃ s, (if line.getLast? = some '\n' then line.dropLast else line) = s ++ pat.dropLast
  else ∃ s t, line = s ++ pat ++ t

theorem prefixCheck_iff (sub l : List Char) :
    prefixCheck sub l = true ↔ ∃ t, l = sub ++ t := by
  induction sub generalizing l with
  | nil => simp [prefixCheck]
  | cons c cs ih =>
    cases l with
    | nil => simp [prefixCheck]
    | cons d ds =>
      simp only [prefixCheck, Bool.and_eq_true, decide_eq_true_eq, ih]
      constructor
      · rintro ⟨rfl, t, rfl⟩
        exact ⟨t, rfl⟩
      · rintro ⟨t, h⟩
        rw [List.cons_append] at h
        cases h
        exact ⟨rfl, t, rfl⟩

theorem suffixCheck_iff (sub l : List Char) :
    suffixCheck sub l = true ↔ ∃ s, l = s ++ sub := by
  unfold suffixCheck
  by_cases hle : sub.length ≤ l.length
  · simp only [hle, if_true, prefixCheck_iff]
    constructor
    · rintro ⟨t, ht⟩
      refine ⟨l.take (l.length - sub.length), ?_⟩
      have hlen : (l.drop (l.length - sub.length)).length = sub.length := by
        simp [List.length_drop]
        omega
      rw [ht] at hlen
      simp [List.length_append] at hlen
      subst hlen
      rw [List.append_nil] at ht
      conv_lhs => rw [← List.take_append_drop (l.length - sub.length) l, ht]
    · rintro ⟨s, rfl⟩
      refine ⟨[], ?_⟩
      have : (s ++ sub).length - sub.length = s.length := by
        simp [List.length_append]
      rw [this, List.drop_left, List.append_nil]
  · rw [if_neg hle]
    simp only [Bool.false_eq_true, false_iff]
    rintro ⟨s, rfl⟩
    simp [List.length_append] at hle

theorem strstrCheck_iff (pat l : List Char) :
    strstrCheck pat l = true ↔ ∃ s t, l = s ++ pat ++ t := by
  induction l with
  | nil =>
    simp only [strstrCheck, prefixCheck_iff]
    constructor
    · rintro ⟨t, ht⟩
      exact ⟨[], t, by simpa using ht⟩
    · rintro ⟨s, t, h⟩
      simp only [List.nil_eq, List.append_eq_nil] at h
      exact ⟨t, by simp [h.1.1, h.1.2, h.2]⟩
  | cons c rest ih =>
    simp only [strstrCheck, Bool.or_eq_true, prefixCheck_iff, ih]
    constructor
    · rintro (⟨t, ht⟩ | ⟨s, t, ht⟩)
      · exact ⟨[], t, by simpa using ht⟩
      · exact ⟨c :: s, t, by simp [ht]⟩
    · rintro ⟨s, t, ht⟩
      cases s with
      | nil =>
        left
        exact ⟨t, by simpa using ht⟩
      | cons c' s' =>
        right
        rw [List.cons_append, List.cons_append] at ht
        cases ht
        exact ⟨s', t, rfl⟩

theorem tryAllSuffixes_iff (f : List Char → Bool) (l : List Char) :
    tryAllSuffixes f l = true ↔ ∃ k, k ≤ l.length ∧ f (l.drop k) = true := by
  induction l with
  | nil =>
    simp only [tryAllSuffixes, List.length_nil]
    constructor
    · intro h
      exact ⟨0, Nat.le_refl 0, h⟩
    · rintro ⟨k, hk, h⟩
      have : k = 0 := Nat.le_zero.mp hk
      subst this
      exact h
  | cons c rest ih =>
    simp only [tryAllSuffixes, Bool.or_eq_true, ih, List.length_cons]
    constructor
    · rintro (h | ⟨k, hk, h⟩)
      · exact ⟨0, Nat.zero_le _, h⟩
      · exact ⟨k + 1, Nat.succ_le_succ hk, h⟩
    · rintro ⟨k, hk, h⟩
      cases k with
      | zero => exact Or.inl h
      | succ j => exact Or.inr ⟨j, Nat.le_of_succ_le_succ hk, h⟩

theorem matchPatternLoop_iff (pat l : List Char) :
    matchPatternLoop pat l = true ↔
      ∃ k, k < l.length ∧ match_from_current_position (l.drop k) pat = true := by
  induction l with
  | nil => simp [matchPatternLoop]
  | cons c rest ih =>
    simp only [matchPatternLoop, Bool.or_eq_true, ih, List.length_cons]
    constructor
    · rintro (h | ⟨k, hk, h⟩)
      · exact ⟨0, Nat.succ_pos _, h⟩
      · exact ⟨k + 1, Nat.succ_lt_succ hk, h⟩
    · rintro ⟨k, hk, h⟩
      cases k with
      | zero => exact Or.inl h
      | succ j => exact Or.inr ⟨j, Nat.lt_of_succ_lt_succ hk, h⟩

theorem mfcp_of_Consumes {line pat : List Char} (h : Consumes line pat) :
    match_from_current_position line pat = true := by
  induction h with
  | nil line => simp [match_from_current_position]
  | star line ps k hk h ih =>
    simp only [match_from_current_position, if_pos rfl]
    exact (tryAllSuffixes_iff _ _).mpr ⟨k, hk, ih⟩
  | qmark c rest ps h ih =>
    simp only [match_from_current_position]
    simp [ih]
  | lit p rest ps hp1 hp2 h ih =>
    simp only [match_from_current_position]
    simp [ih, hp1, hp2]

theorem Consumes_of_mfcp {pat : List Char} :
    ∀ {line : List Char}, match_from_current_position line pat = true → Consumes line pat := by
  induction pat with
  | nil => exact fun {line} _ => Consumes.nil line
  | cons p ps ih =>
    intro line h
    simp only [match_from_current_position] at h
    by_cases hstar : p = '*'
    · rw [if_pos hstar] at h
      subst hstar
      obtain ⟨k, hk, hf⟩ := (tryAllSuffixes_iff _ _).mp h
      exact Consumes.star line ps k hk (ih hf)
    · rw [if_neg hstar] at h
      cases line with
      | nil => simp at h
      | cons c rest =>
        simp only [] at h
        by_cases hq : p = '?'
        · rw [if_pos hq] at h
          subst hq
          exact Consumes.qmark c rest ps (ih h)
        · rw [if_neg hq] at h
          by_cases hc : p = c
          · rw [if_pos hc] at h
            subst hc
            exact Consumes.lit p rest ps hstar hq (ih h)
          · rw [if_neg hc] at h
            exact absurd h (by simp)

theorem mfcp_iff_Consumes (line pat : List Char) :
    match_from_current_position line pat = true ↔ Consumes line pat :=
  ⟨Consumes_of_mfcp, mfcp_of_Consumes⟩

theorem line_matches_eq (line pat : List Char) (opts : grep_options) (b : Bool) :
    line_matches line pat { opts with invert_match := b }
      = (if b then !(raw_match line pat opts) else raw_match line pat opts) := by
  cases opts
  rfl

/-- C1 counterexample: against the claim, a pattern consisting only of `*`
characters does not match the empty line — `match_pattern` returns false on
the empty line for the pattern `"*"`, even though the wildcard-consumption
semantics consume that pattern from the (sole, empty) starting position. -/
theorem c1_counterexample :
    match_pattern [] ['*'] = false ∧ Consumes [] ['*'] :=
  ⟨rfl, Consumes.star [] [] 0 (Nat.le_refl 0) (Consumes.nil [])⟩

/-- C1 amended: wildcard-mode matching returns true iff the pattern is empty
or the full pattern can be consumed — `*` matching zero or more arbitrary
characters, `?` exactly one, every other character literally — from some
starting offset strictly inside the line (offsets `0 .. line.length - 1`);
consequently an all-`*` pattern matches every nonempty line but no nonempty
pattern matches the empty line. -/
theorem c1_wildcard_characterization (line pat : List Char) :
    match_pattern line pat = true ↔
      (pat = [] ∨ ∃ k, k < line.length ∧ Consumes (line.drop k) pat) := by
  unfold match_pattern
  by_cases hp : pat = []
  · simp [hp]
  · rw [if_neg hp, matchPatternLoop_iff]
    constructor
    · rintro ⟨k, hk, h⟩
      exact Or.inr ⟨k, hk, (mfcp_iff_Consumes _ _).mp h⟩
    · rintro (h | ⟨k, hk, h⟩)
      · exact absurd h hp
      · exact ⟨k, hk, (mfcp_iff_Consumes _ _).mpr h⟩

/-- C2: anchored matching of `main.c` agrees everywhere with the
specification semantics: a leading `^` requires the line to start with the
pattern's remainder (character-for-character, no newline stripping, the
remainder kept literal even if it ends in `$`); otherwise a trailing `$`
requires the line, with at most one trailing newline stripped, to end with
the remainder; a pattern with neither anchor falls back to substring
containment. -/
theorem c2_anchor_characterization (line pat : List Char) :
    match_with_anchors line pat = true ↔ AnchorSpec line pat := by
  unfold match_with_anchors AnchorSpec
  by_cases h1 : pat.head? = some '^'
  · rw [if_pos h1, if_pos h1]
    exact prefixCheck_iff _ _
  · rw [if_neg h1, if_neg h1]
    by_cases h2 : pat.getLast? = some '$'
    · rw [if_pos h2, if_pos h2]
      exact suffixCheck_iff _ _
    · rw [if_neg h2, if_neg h2]
      exact strstrCheck_iff _ _

/-- C3: in literal mode (no anchors, no wildcards) and without inversion,
`line_matches` returns true iff the pattern occurs as a contiguous substring
of the line, and the empty pattern matches every line. -/
theorem c3_literal_mode (line pat : List Char) (opts : grep_options)
    (ha : opts.use_anchors = false) (hw : opts.use_wildcards = false)
    (hv : opts.invert_match = false) :
    (opts.ignore_case = false →
      (line_matches line pat opts = true ↔ ∃ s t, line = s ++ pat ++ t)) ∧
    (pat = [] → line_matches line pat opts = true) := by
  constructor
  · intro hi
    have hu : line_matches line pat opts = strstrCheck pat line := by
      simp [line_matches, raw_match, hv, ha, hw, hi]
    rw [hu]
    exact strstrCheck_iff _ _
  · intro hp
    subst hp
    cases hic : opts.ignore_case
    · have hu : line_matches line [] opts = strstrCheck [] line := by
        simp [line_matches, raw_match, hv, ha, hw, hic]
      rw [hu, strstrCheck_iff]
      exact ⟨[], line, by simp⟩
    · have hu : line_matches line [] opts = strstrCheck (foldCase []) (foldCase line) := by
        simp [line_matches, raw_match, hv, ha, hw, hic]
      rw [hu, show foldCase [] = [] from rfl, strstrCheck_iff]
      exact ⟨[], foldCase line, by simp⟩

/-- C3 witness: with all flags off, pattern `"world"` is found as a substring
of `"hello world"`, and the empty pattern matches that line as well. -/
theorem c3_witness :
    line_matches ("hello world".toList) ("world".toList)
        ⟨false, false, false, false, false, false⟩ = true ∧
    line_matches ("hello world".toList) []
        ⟨false, false, false, false, false, false⟩ = true := by
  constructor
  · exact ((c3_literal_mode ("hello world".toList) ("world".toList)
      ⟨false, false, false, false, false, false⟩ rfl rfl rfl).1 rfl).mpr
      ⟨"hello ".toList, [], by decide⟩
  · exact (c3_literal_mode ("hello world".toList) []
      ⟨false, false, false, false, false, false⟩ rfl rfl rfl).2 rfl

/-- C4: for every line, pattern and option set, the result with
`invert_match` set equals the boolean negation of the result with
`invert_match` clear — inversion is the final step after the selected mode's
comparison. -/
theorem c4_invert_composition (line pat : List Char) (opts : grep_options) :
    line_matches line pat { opts with invert_match := true }
      = !(line_matches line pat { opts with invert_match := false }) := by
  rw [line_matches_eq, line_matches_eq]
  simp

/-- C5: with `ignore_case` set, matching is performed on the case-folded
bounded copies of the line and the pattern: the result equals a plain
(`ignore_case` clear) match on `foldCase` of both inputs, where `foldCase`
lower-cases and keeps at most the `MAX_LINE_LENGTH - 1` characters that fit
the fixed copy buffer — the same content cap as `fgets`-read input lines —
silently dropping the excess. -/
theorem c5_case_fold (line pat : List Char) (opts : grep_options)
    (h : opts.ignore_case = true) :
    line_matches line pat opts
        = line_matches (foldCase line) (foldCase pat) { opts with ignore_case := false }
      ∧ foldCase line = (line.take (MAX_LINE_LENGTH - 1)).map tolowerChar
      ∧ (foldCase line).length = min (MAX_LINE_LENGTH - 1) line.length := by
  obtain ⟨i, n, c, v, w, a⟩ := opts
  cases h
  exact ⟨rfl, rfl, by simp [foldCase]⟩

/-- C5 witness: pattern `"WORLD"` matches line `"hello world"` exactly when
`ignore_case` is set, and the set-case result coincides with the plain match
on the folded copies. -/
theorem c5_witness :
    line_matches ("hello world".toList) ("WORLD".toList)
        ⟨true, false, false, false, false, false⟩ = true ∧
    line_matches ("hello world".toList) ("WORLD".toList)
        ⟨false, false, false, false, false, false⟩ = false ∧
    line_matches ("hello world".toList) ("WORLD".toList)
        ⟨true, false, false, false, false, false⟩
      = line_matches (foldCase ("hello world".toList)) (foldCase ("WORLD".toList))
          ⟨false, false, false, false, false, false⟩ :=
  ⟨by decide, by decide,
    (c5_case_fold ("hello world".toList) ("WORLD".toList)
      ⟨true, false, false, false, false, false⟩ rfl).1⟩

/-- A write of C string `s` (plus its terminating NUL, `s.length + 1` bytes
in all) into a fixed buffer of `cap` bytes: defined exactly when the write
stays in bounds; the out-of-bounds write is modelled as `none`. -/
def bufWrite (cap : Nat) (s : List Char) : Option (List Char) :=
  if s.length + 1 ≤ cap then some s else none

/-- The copy step of `line_matches` (lines 155-177 of `main.c`) with its
buffer bounds made explicit: with `ignore_case` set the copy loop is bounded
at `MAX_LINE_LENGTH - 1` characters and always fits; with it clear the copy
is an unbounded `strcpy` into the `MAX_LINE_LENGTH`-byte buffer, modelled as
a `bufWrite` whose overflow case is `none`. -/
def lineCopy (opts : grep_options) (s : List Char) : Option (List Char) :=
  if opts.ignore_case then some (foldCase s) else bufWrite MAX_LINE_LENGTH s

/-- `line_matches` with the buffer discipline of its two copies tracked:
`none` marks a reachable out-of-bounds `strcpy` write. -/
def line_matches_checked (line pat : List Char) (opts : grep_options) : Option Bool :=
  match lineCopy opts line, lineCopy opts pat with
  | some lc, some pc =>
    let m := if opts.use_anchors then match_with_anchors lc pc
             else if opts.use_wildcards then match_pattern lc pc
             else strstrCheck pc lc
    some (if opts.invert_match then !m else m)
  | _, _ => none

/-- C9: the copies of `line_matches` are written into fixed
`MAX_LINE_LENGTH`-byte buffers; with `ignore_case` clear the unbounded
`strcpy` stays in bounds exactly when both the line and the pattern are
strictly shorter than `MAX_LINE_LENGTH` characters, in which case each copy
equals the original string and the tracked computation agrees with
`line_matches`; with `ignore_case` set the copies are truncated at
`MAX_LINE_LENGTH - 1` characters, so the computation is defined with no
length precondition on the pattern. -/
theorem c9_copy_buffer_bounds (line pat : List Char) (opts : grep_options) :
    (opts.ignore_case = false →
      ((line_matches_checked line pat opts).isSome = true ↔
        (line.length < MAX_LINE_LENGTH ∧ pat.length < MAX_LINE_LENGTH)) ∧
      (line.length < MAX_LINE_LENGTH → pat.length < MAX_LINE_LENGTH →
        lineCopy opts line = some line ∧ lineCopy opts pat = some pat ∧
        line_matches_checked line pat opts = some (line_matches line pat opts))) ∧
    (opts.ignore_case = true →
      lineCopy opts line = some (foldCase line) ∧
      (foldCase pat).length < MAX_LINE_LENGTH ∧
      line_matches_checked line pat opts = some (line_matches line pat opts)) := by
  constructor
  · intro hic
    have hcopy : ∀ s : List Char, lineCopy opts s = bufWrite MAX_LINE_LENGTH s := by
      intro s
      simp [lineCopy, hic]
    have hsome : ∀ s : List Char, s.length < MAX_LINE_LENGTH →
        bufWrite MAX_LINE_LENGTH s = some s := by
      intro s hs
      rw [bufWrite, if_pos (by omega)]
    have hnone : ∀ s : List Char, ¬ s.length < MAX_LINE_LENGTH →
        bufWrite MAX_LINE_LENGTH s = none := by
      intro s hs
      rw [bufWrite, if_neg (by omega)]
    constructor
    · by_cases hl : line.length < MAX_LINE_LENGTH
      · by_cases hp : pat.length < MAX_LINE_LENGTH
        · simp [line_matches_checked, hcopy, hsome _ hl, hsome _ hp, hl, hp]
        · simp [line_matches_checked, hcopy, hnone _ hp, hp]
      · simp [line_matches_checked, hcopy, hnone _ hl, hl]
    · intro hl hp
      have h1 : lineCopy opts line = some line := by rw [hcopy]; exact hsome _ hl
      have h2 : lineCopy opts pat = some pat := by rw [hcopy]; exact hsome _ hp
      refine ⟨h1, h2, ?_⟩
      simp [line_matches_checked, h1, h2, line_matches, raw_match, hic]
  · intro hic
    have h1 : lineCopy opts line = some (foldCase line) := by simp [lineCopy, hic]
    have h2 : lineCopy opts pat = some (foldCase pat) := by simp [lineCopy, hic]
    refine ⟨h1, ?_, ?_⟩
    · have hlen : (foldCase pat).length = min (MAX_LINE_LENGTH - 1) pat.length := by
        simp [foldCase]
      rw [hlen, MAX_LINE_LENGTH]
      omega
    · simp [line_matches_checked, h1, h2, line_matches, raw_match, hic]

/-- C9 witness: for the short line `"abc"` and pattern `"b"` with all flags
clear, the copies fit the buffers, equal the originals, and the tracked
computation returns the `line_matches` result. -/
theorem c9_witness :
    lineCopy ⟨false, false, false, false, false, false⟩ ("abc".toList)
        = some ("abc".toList) ∧
    line_matches_checked ("abc".toList) ("b".toList)
        ⟨false, false, false, false, false, false⟩
      = some (line_matches ("abc".toList) ("b".toList)
          ⟨false, false, false, false, false, false⟩) := by
  have h := (c9_copy_buffer_bounds ("abc".toList) ("b".toList)
    ⟨false, false, false, false, false, false⟩).1 rfl
  exact ⟨(h.2 (by decide) (by decide)).1, (h.2 (by decide) (by decide)).2.2⟩

/-- The per-source mutable counters of `search_file` (lines 203-204 of
`main.c`): the current line number and the cumulative match count. -/
structure scanState where
  line_number : Nat
  match_count : Nat
deriving DecidableEq, Repr

/-- The record printed for one matching line (lines 229-248 of `main.c`):
optional `filename:` segment, optional `linenumber:` segment, the raw line,
and one appended newline iff the line is nonempty and lacks a trailing
newline. -/
def formatMatchRecord (filename : List Char) (opts : grep_options) (pf : Bool)
    (n : Nat) (line : List Char) : List Char :=
  (if pf then filename ++ [':'] else [])
    ++ (if opts.line_number then (toString n).toList ++ [':'] else [])
    ++ line
    ++ (if line ≠ [] ∧ line.getLast? ≠ some '\n' then ['\n'] else [])

/-- The count record printed after a source is exhausted in count-only mode
(lines 252-259 of `main.c`): optional `filename:` segment, the match count,
a newline. -/
def countRecord (filename : List Char) (pf : Bool) (count : Nat) : List Char :=
  (if pf then filename ++ [':'] else []) ++ (toString count).toList ++ ['\n']

/-- The `fgets` loop of `search_file` (lines 221-250 of `main.c`): consume
the lines in order, incrementing the line number once per line, incrementing
the match count and (unless in count-only mode) emitting one record exactly
when `line_matches` holds. Returns the final counters and the emitted
records in order. -/
def scanLines (pattern filename : List Char) (opts : grep_options) (pf : Bool) :
    scanState → List (List Char) → scanState × List (List Char)
  | st, [] => (st, [])
  | st, l :: ls =>
    let n := st.line_number + 1
    if line_matches l pattern opts then
      let out := if opts.count_only then [] else [formatMatchRecord filename opts pf n l]
      let r := scanLines pattern filename opts pf ⟨n, st.match_count + 1⟩ ls
      (r.1, out ++ r.2)
    else
      scanLines pattern filename opts pf ⟨n, st.match_count⟩ ls

/-- The records `search_file` writes to standard output while scanning the
given lines: the per-line records of the scan loop, followed by the single
count record when `count_only` is set (lines 221-259 of `main.c`). -/
def search_file_output (pattern filename : List Char) (opts : grep_options) (pf : Bool)
    (lines : List (List Char)) : List (List Char) :=
  let r := scanLines pattern filename opts pf ⟨0, 0⟩ lines
  r.2 ++ (if opts.count_only then [countRecord filename pf r.1.match_count] else [])

/-- The name `search_file` compares the filename against to select standard
input (line 207 of `main.c`). -/
def stdinName : List Char := "stdin".toList

/-- The diagnostic written to standard error when a file cannot be opened
(line 216 of `main.c`); `Char.ofNat 39` is the ASCII single quote. -/
def openErrorMsg (filename : List Char) : List Char :=
  "Error: Cannot open file ".toList ++ [Char.ofNat 39] ++ filename
    ++ [Char.ofNat 39] ++ "\n".toList

/-- `search_file` of `main.c` (lines 199-265): a source named exactly
`stdin` reads the standard-input lines; any other name is opened through the
file system `fs`, and an open failure emits one diagnostic and returns with
no output. Result: (standard-output records, standard-error records). -/
def search_file (pattern filename : List Char) (opts : grep_options) (pf : Bool)
    (fs : List Char → Option (List (List Char))) (stdinLines : List (List Char)) :
    List (List Char) × List (List Char) :=
  if filename = stdinName then
    (search_file_output pattern filename opts pf stdinLines, [])
  else
    match fs filename with
    | none => ([], [openErrorMsg filename])
    | some ls => (search_file_output pattern filename opts pf ls, [])

/-- The rewriting of the sentinel argument `-` performed by `main` (lines
346-354 of `main.c`): `-` is replaced by the literal name `stdin` before
`search_file` is called; every other argument is passed through. -/
def effectiveName (arg : List Char) : List Char :=
  if arg = ['-'] then stdinName else arg

/-- The source loop of `main` (lines 344-355 of `main.c`): scan each source
argument in order, concatenating the standard-output and standard-error
records. -/
def runSources (pattern : List Char) (opts : grep_options) (pf : Bool)
    (fs : List Char → Option (List (List Char))) (stdinLines : List (List Char)) :
    List (List Char) → List (List Char) × List (List Char)
  | [] => ([], [])
  | arg :: rest =>
    let r := search_file pattern (effectiveName arg) opts pf fs stdinLines
    let rr := runSources pattern opts pf fs stdinLines rest
    (r.1 ++ rr.1, r.2 ++ rr.2)

/-- `main` of `main.c` after argument parsing (lines 332-358): no source
arguments means one implicit stdin scan without filename prefixing;
otherwise every source is scanned in order with prefixing exactly when more
than one source is given; the exit code is `EXIT_SUCCESS` (0) either way. -/
def grep_main (pattern : List Char) (opts : grep_options) (sources : List (List Char))
    (fs : List Char → Option (List (List Char))) (stdinLines : List (List Char)) :
    List (List Char) × List (List Char) × Nat :=
  if sources = [] then
    let r := search_file pattern stdinName opts false fs stdinLines
    (r.1, r.2, 0)
  else
    let r := runSources pattern opts (decide (1 < sources.length)) fs stdinLines sources
    (r.1, r.2, 0)

theorem scanLines_tally (pattern filename : List Char) (opts : grep_options) (pf : Bool)
    (lines : List (List Char)) (st : scanState) :
    (scanLines pattern filename opts pf st lines).1.line_number
        = st.line_number + lines.length ∧
    (scanLines pattern filename opts pf st lines).1.match_count
        = st.match_count + lines.countP (fun l => line_matches l pattern opts) := by
  induction lines generalizing st with
  | nil => simp [scanLines]
  | cons l ls ih =>
    by_cases hm : line_matches l pattern opts = true
    · have h1 := ih ⟨st.line_number + 1, st.match_count + 1⟩
      simp only [scanLines, hm, if_true, List.countP_cons, List.length_cons]
      simp [h1.1, h1.2, hm]
      omega
    · have h1 := ih ⟨st.line_number + 1, st.match_count⟩
      simp only [scanLines, hm, if_false, List.countP_cons, List.length_cons]
      simp only [Bool.not_eq_true] at hm
      simp [h1.1, h1.2, hm]
      omega

theorem scanLines_count_only_no_output (pattern filename : List Char)
    (opts : grep_options) (pf : Bool) (lines : List (List Char)) (st : scanState)
    (hc : opts.count_only = true) :
    (scanLines pattern filename opts pf st lines).2 = [] := by
  induction lines generalizing st with
  | nil => simp [scanLines]
  | cons l ls ih =>
    by_cases hm : line_matches l pattern opts = true
    · simp [scanLines, hm, hc, ih]
    · simp [scanLines, hm, ih]

theorem search_file_output_count_only (pattern filename : List Char)
    (opts : grep_options) (pf : Bool) (lines : List (List Char))
    (hc : opts.count_only = true) :
    search_file_output pattern filename opts pf lines
      = [countRecord filename pf
          (lines.countP (fun l => line_matches l pattern opts))] := by
  simp only [search_file_output, hc, if_true]
  rw [scanLines_count_only_no_output pattern filename opts pf lines ⟨0, 0⟩ hc]
  have h := (scanLines_tally pattern filename opts pf lines ⟨0, 0⟩).2
  simp only [List.nil_append]
  simp at h
  simp [h]

theorem runSources_append (pattern : List Char) (opts : grep_options) (pf : Bool)
    (fs : List Char → Option (List (List Char))) (stdinLines : List (List Char))
    (xs ys : List (List Char)) :
    runSources pattern opts pf fs stdinLines (xs ++ ys)
      = ((runSources pattern opts pf fs stdinLines xs).1
           ++ (runSources pattern opts pf fs stdinLines ys).1,
         (runSources pattern opts pf fs stdinLines xs).2
           ++ (runSources pattern opts pf fs stdinLines ys).2) := by
  induction xs with
  | nil => simp [runSources]
  | cons a as ih => simp [runSources, ih]

/-- C6: in count-only mode the scan loop emits no per-line record, and the
whole source scan emits exactly one record: the optional source-name segment
followed by the number of matching lines and a newline. -/
theorem c6_count_only_record (pattern filename : List Char) (opts : grep_options)
    (pf : Bool) (lines : List (List Char)) (hc : opts.count_only = true) :
    search_file_output pattern filename opts pf lines
      = [countRecord filename pf
          (lines.countP (fun l => line_matches l pattern opts))] ∧
    (scanLines pattern filename opts pf ⟨0, 0⟩ lines).2 = [] :=
  ⟨search_file_output_count_only pattern filename opts pf lines hc,
   scanLines_count_only_no_output pattern filename opts pf lines ⟨0, 0⟩ hc⟩

/-- C6 witness: a 3-line source with 2 literally matching lines emits, in
count-only mode with source-name prefixing, exactly the one record
`fruits:2` (with trailing newline) and zero per-line records. -/
theorem c6_witness :
    search_file_output ("apple".toList) ("fruits".toList)
        ⟨false, false, true, false, false, false⟩ true
        [("apple pie\n".toList), ("banana\n".toList), ("apple tart\n".toList)]
      = ["fruits:2\n".toList] ∧
    (scanLines ("apple".toList) ("fruits".toList)
        ⟨false, false, true, false, false, false⟩ true ⟨0, 0⟩
        [("apple pie\n".toList), ("banana\n".toList), ("apple tart\n".toList)]).2
      = [] := by
  have h := c6_count_only_record ("apple".toList) ("fruits".toList)
    ⟨false, false, true, false, false, false⟩ true
    [("apple pie\n".toList), ("banana\n".toList), ("apple tart\n".toList)] rfl
  refine ⟨?_, h.2⟩
  rw [h.1]
  decide

/-- C7: a named source that cannot be opened is recoverable: `search_file`
emits one diagnostic identifying the source on standard error and no output,
the overall exit code of `grep_main` is 0 regardless, and in a multi-source
scan the failing source contributes only its diagnostic while every
remaining source is still scanned in order. -/
theorem c7_open_failure_recoverable (pattern : List Char) (opts : grep_options)
    (sources pre post : List (List Char)) (name : List Char) (pf : Bool)
    (fs : List Char → Option (List (List Char))) (stdinLines : List (List Char))
    (hname : name ≠ stdinName) (hopen : fs name = none) :
    search_file pattern name opts pf fs stdinLines = ([], [openErrorMsg name]) ∧
    (grep_main pattern opts sources fs stdinLines).2.2 = 0 ∧
    (name ≠ ['-'] →
      runSources pattern opts pf fs stdinLines (pre ++ name :: post)
        = ((runSources pattern opts pf fs stdinLines pre).1
             ++ (runSources pattern opts pf fs stdinLines post).1,
           (runSources pattern opts pf fs stdinLines pre).2
             ++ openErrorMsg name
                :: (runSources pattern opts pf fs stdinLines post).2)) := by
  have hfail : search_file pattern name opts pf fs stdinLines
      = ([], [openErrorMsg name]) := by
    simp [search_file, hname, hopen]
  refine ⟨hfail, ?_, ?_⟩
  · unfold grep_main
    split <;> rfl
  · intro hdash
    rw [runSources_append]
    have hstep : runSources pattern opts pf fs stdinLines (name :: post)
        = ([] ++ (runSources pattern opts pf fs stdinLines post).1,
           openErrorMsg name :: (runSources pattern opts pf fs stdinLines post).2) := by
      simp [runSources, effectiveName, hdash, hfail]
    rw [hstep]
    simp

/-- C7 witness: with a file system in which only `ok` exists, scanning
`missing` yields one diagnostic and no output, and the whole two-source run
exits 0. -/
theorem c7_witness :
    search_file ("x".toList) ("missing".toList)
        ⟨false, false, false, false, false, false⟩ true
        (fun n => if n = ("ok".toList) then some [("x\n".toList)] else none)
        [("s\n".toList)]
      = ([], [openErrorMsg ("missing".toList)]) ∧
    (grep_main ("x".toList) ⟨false, false, false, false, false, false⟩
        [("missing".toList), ("ok".toList)]
        (fun n => if n = ("ok".toList) then some [("x\n".toList)] else none)
        [("s\n".toList)]).2.2 = 0 := by
  have h := c7_open_failure_recoverable ("x".toList)
    ⟨false, false, false, false, false, false⟩
    [("missing".toList), ("ok".toList)] [] [("ok".toList)] ("missing".toList) true
    (fun n => if n = ("ok".toList) then some [("x\n".toList)] else none)
    [("s\n".toList)] (by decide) (by decide)
  exact ⟨h.1, h.2.1⟩

/-- C8: the scan counters of `search_file`: the line number is incremented
once per consumed line regardless of matching (so the k-th consumed line is
numbered k, 1-based, and the final value is the initial one plus the number
of lines), and the match count is incremented exactly on the logical,
post-inversion match result — under `invert_match` it counts the lines whose
raw mode comparison is false. -/
theorem c8_tally_invariant (pattern filename : List Char) (opts : grep_options)
    (pf : Bool) (lines : List (List Char)) (st : scanState) :
    (scanLines pattern filename opts pf st lines).1.line_number
        = st.line_number + lines.length ∧
    (scanLines pattern filename opts pf st lines).1.match_count
        = st.match_count + lines.countP (fun l => line_matches l pattern opts) ∧
    (opts.invert_match = true →
      (scanLines pattern filename opts pf st lines).1.match_count
        = st.match_count
            + lines.countP (fun l => !(raw_match l pattern opts))) := by
  refine ⟨(scanLines_tally pattern filename opts pf lines st).1,
    (scanLines_tally pattern filename opts pf lines st).2, ?_⟩
  intro hv
  rw [(scanLines_tally pattern filename opts pf lines st).2]
  have hfun : (fun l => line_matches l pattern opts)
      = fun l => !(raw_match l pattern opts) :=
    funext fun l => by simp [line_matches, hv]
  rw [hfun]

/-- C8 witness: scanning the two lines `a` and `b` for pattern `a` with
`invert_match` set consumes 2 lines and counts exactly the 1 non-matching
line. -/
theorem c8_witness :
    (scanLines ("a".toList) ("f".toList) ⟨false, false, false, true, false, false⟩
        false ⟨0, 0⟩ [("a\n".toList), ("b\n".toList)]).1.line_number = 2 ∧
    (scanLines ("a".toList) ("f".toList) ⟨false, false, false, true, false, false⟩
        false ⟨0, 0⟩ [("a\n".toList), ("b\n".toList)]).1.match_count
      = [("a\n".toList), ("b\n".toList)].countP
          (fun l => !(raw_match l ("a".toList)
            ⟨false, false, false, true, false, false⟩)) := by
  have h := c8_tally_invariant ("a".toList) ("f".toList)
    ⟨false, false, false, true, false, false⟩ false
    [("a\n".toList), ("b\n".toList)] ⟨0, 0⟩
  exact ⟨by simpa using h.1, by simpa using h.2.2 rfl⟩

/-- C10: the sentinel argument `-` is rewritten by `main` to the literal
name `stdin` before `search_file` is called, while every other argument is
passed through; `search_file` treats the name `stdin` as standard input,
never consulting the file system — so a file literally named `stdin` can
never be opened — and the records emitted for a `-` source carry the
source-name `stdin`, as the count-only record of a prefixed `-` source
shows. -/
theorem c10_stdin_sentinel (pattern : List Char) (opts : grep_options) (pf : Bool)
    (arg : List Char) (fs fs2 : List Char → Option (List (List Char)))
    (stdinLines : List (List Char)) :
    effectiveName ['-'] = stdinName ∧
    (arg ≠ ['-'] → effectiveName arg = arg) ∧
    search_file pattern stdinName opts pf fs stdinLines
      = (search_file_output pattern stdinName opts pf stdinLines, []) ∧
    search_file pattern stdinName opts pf fs stdinLines
      = search_file pattern stdinName opts pf fs2 stdinLines ∧
    (opts.count_only = true →
      search_file pattern (effectiveName ['-']) opts pf fs stdinLines
        = ([countRecord stdinName pf
            (stdinLines.countP (fun l => line_matches l pattern opts))], [])) := by
  have h1 : effectiveName ['-'] = stdinName := by simp [effectiveName]
  have h3 : search_file pattern stdinName opts pf fs stdinLines
      = (search_file_output pattern stdinName opts pf stdinLines, []) := by
    simp [search_file]
  refine ⟨h1, fun h => by simp [effectiveName, h], h3, ?_, ?_⟩
  · rw [h3]
    simp [search_file]
  · intro hc
    rw [h1, h3, search_file_output_count_only pattern stdinName opts pf stdinLines hc]

/-- C10 witness: with a file system that can open nothing, a prefixed
count-only scan of the `-` source still reads the standard-input lines and
emits the record with the `stdin:` name segment. -/
theorem c10_witness :
    effectiveName ['-'] = stdinName ∧
    search_file ("a".toList) (effectiveName ['-'])
        ⟨false, false, true, false, false, false⟩ true (fun _ => none)
        [("aa\n".toList), ("b\n".toList)]
      = (["stdin:1\n".toList], []) := by
  have h := c10_stdin_sentinel ("a".toList) ⟨false, false, true, false, false, false⟩
    true ("f".toList) (fun _ => none) (fun _ => none)
    [("aa\n".toList), ("b\n".toList)]
  refine ⟨h.1, ?_⟩
  rw [h.2.2.2.2 rfl]
  decide

/-- Sanity checks: the worked examples of the specification, evaluated on
the embedded matchers. -/
theorem matcher_examples :
    match_pattern ("xaYYcZ".toList) ("a*c".toList) = true ∧
    match_pattern ("ab".toList) ("a*c".toList) = false ∧
    match_pattern ("abc".toList) ("a?c".toList) = true ∧
    match_pattern ("ac".toList) ("a?c".toList) = false ∧
    match_pattern ("abbc".toList) ("a?c".toList) = false ∧
    match_with_anchors ("abc def".toList) ("^abc".toList) = true ∧
    match_with_anchors ("xabc def".toList) ("^abc".toList) = false ∧
    match_with_anchors ("abc def\n".toList) ("def$".toList) = true ∧
    match_with_anchors ("abc def!".toList) ("def$".toList) = false := by
  decide
